import Mathlib

/-!
Verification of the supergrep search engine (src/supergrep.py).

Strings are modelled as lists of characters (`Str`); Python's substring
operator `in` is `occursIn`, `str.split(sep)` for a one-character separator
is `splitOnChar`, `str.strip()` is `stripStr` (ASCII whitespace).  File
contents, converter output and the parsed XML tree are passed explicitly
in place of the I/O the script performs.
-/

namespace Supergrep

abbrev Str := List Char

/-- Embedding of the `SearchResult` attrs class: one located match, with
optional text and three optional location fields (all default `None`). -/
structure SearchResult where
  filepath : Str
  rtext : Option Str := none
  line_no : Option Nat := none
  page_no : Option Nat := none
  sections : Option (List Str) := none
deriving DecidableEq

/-- Embedding of the `SearchResults` attrs class (the per-file result set). -/
structure SearchResults where
  results : List SearchResult
  search_term : Str
  rtype : Str
deriving DecidableEq

/-- Prefix test: `startsWith s t` holds when `t` is a prefix of `s`
(helper for the embedding of Python's substring operator). -/
def startsWith : Str → Str → Bool
  | _, [] => true
  | [], _ :: _ => false
  | c :: cs, d :: ds => c = d && startsWith cs ds

/-- Embedding of Python's `t in s` substring test: `occursIn t s` is true
iff `t` occurs contiguously in `s`. -/
def occursIn (t : Str) : Str → Bool
  | [] => decide (t = [])
  | c :: rest => startsWith (c :: rest) t || occursIn t rest

/-- Embedding of Python's `s.split(sep)` for a single-character separator:
always returns at least one (possibly empty) segment. -/
def splitOnChar (sep : Char) : Str → List Str
  | [] => [[]]
  | c :: rest =>
    match splitOnChar sep rest with
    | [] => [[]]
    | seg :: segs =>
      if c = sep then [] :: seg :: segs
      else (c :: seg) :: segs

/-- ASCII whitespace, as stripped by Python's `str.strip()`. -/
def isPySpace (c : Char) : Bool :=
  c = ' ' || c = '\t' || c = '\n' || c = '\r' || c = '\x0b' || c = '\x0c'

/-- Embedding of Python's `line.strip()`. -/
def stripStr (s : Str) : Str :=
  ((s.dropWhile isPySpace).reverse.dropWhile isPySpace).reverse

/-- The `nsmap` dictionary inside `qn`, as a total function (the script
only ever looks up the keys present in the dictionary). -/
def nsmapGet (k : Str) : Str :=
  if k = "text".data then ("urn:oasis:names:tc:opendocument:xmlns:text:1.0".data)
  else if k = "office".data then ("urn:oasis:names:tc:opendocument:xmlns:office:1.0".data)
  else []

/-- Embedding of `qn`: split on the colon and build the Clark-notation
qualified name (the script only calls it on well-formed two-part names). -/
def qn (ns : Str) : Str :=
  let spl := splitOnChar ':' ns
  ('\x7b' :: nsmapGet (spl.headD [])) ++ ('\x7d' :: spl.getD 1 [])

/-- Embedding of the `enumerate(file_)` loop of `search_txt`, with the
running line counter made explicit: one result per line containing the
search term. -/
def searchTxtFrom (search_term fp : Str) (n : Nat) : List Str → List SearchResult
  | [] => []
  | line :: rest =>
    (if occursIn search_term line then
      [{ filepath := fp, rtext := some line, line_no := some n }]
     else []) ++ searchTxtFrom search_term fp (n + 1) rest

/-- The list of results `search_txt` accumulates over a file's lines. -/
def searchTxtResults (search_term fp : Str) (lines : List Str) : List SearchResult :=
  searchTxtFrom search_term fp 0 lines

/-- Embedding of `SearchWorker.search_txt`: the file's decoded lines are
passed in place of the file read. -/
def search_txt (search_term fp : Str) (lines : List Str) : Option SearchResults :=
  let results := searchTxtResults search_term fp lines
  if results.isEmpty then none
  else some { results := results, search_term := search_term, rtype := "text".data }

/-- Embedding of the inner loop of `search_pdf`: search one page's lines,
stripping each matching line. -/
def searchPageLines (search_term fp : Str) (page_num : Nat) (page : Str) : List SearchResult :=
  (splitOnChar '\n' page).filterMap (fun line =>
    if occursIn search_term line then
      some { filepath := fp, rtext := some (stripStr line), page_no := some page_num }
    else none)

/-- Embedding of the `enumerate(pages, start=1)` loop of `search_pdf`. -/
def searchPdfPages (search_term fp : Str) (n : Nat) : List Str → List SearchResult
  | [] => []
  | page :: rest =>
    searchPageLines search_term fp n page ++ searchPdfPages search_term fp (n + 1) rest

/-- The list of results `search_pdf` accumulates over the converter's
output, split on the form-feed character into 1-indexed pages. -/
def searchPdfResults (search_term fp : Str) (stdout : Str) : List SearchResult :=
  searchPdfPages search_term fp 1 (splitOnChar '\x0c' stdout)

/-- Embedding of `SearchWorker.search_pdf`: the subprocess exit code and
captured stdout are passed explicitly; a non-zero exit code raises
`RuntimeError`, embedded as `Except.error`. -/
def search_pdf (search_term fp : Str) (returncode : Int) (stdout : Str) :
    Except Str (Option SearchResults) :=
  if returncode ≠ 0 then
    Except.error ("Something went wrong with pdf parsing".data)
  else
    let results := searchPdfResults search_term fp stdout
    if results.isEmpty then Except.ok none
    else Except.ok (some { results := results, search_term := search_term, rtype := "pdf".data })

/-- An element of the parsed `content.xml` tree: a tag, optional direct
text, optional tail text, and children (as in `xml.etree.ElementTree`). -/
inductive Element where
  | mk (tag : Str) (text : Option Str) (tail : Option Str) (children : List Element)

mutual

/-- Embedding of `SearchWorker.search_odt_element`.  The Python function
mutates the shared `sections` list (appending on headings, never popping)
and appends to `results`; both are threaded here as explicit state and the
final pair is returned so that mutation is visible to later siblings. -/
def searchOdtElement (search_term fp : Str) (element : Element)
    (sections : List Str) (results : List SearchResult) :
    List Str × List SearchResult :=
  match element with
  | .mk tag text _tail children =>
    if tag = qn ("text:h".data) then
      let header_text := text.getD []
      let sections1 := sections ++ [header_text]
      let results1 :=
        if occursIn search_term header_text then
          results ++ [{ filepath := fp, sections := some sections1 }]
        else results
      searchOdtList search_term fp children sections1 results1
    else
      let results1 :=
        match text with
        | some etext =>
          if occursIn search_term etext then
            results ++ [{ filepath := fp, rtext := some etext, sections := some sections }]
          else results
        | none => results
      searchOdtList search_term fp children sections results1

/-- The `for child in element` loop of `search_odt_element`, threading the
shared section stack and result list through the children in order. -/
def searchOdtList (search_term fp : Str) (els : List Element)
    (sections : List Str) (results : List SearchResult) :
    List Str × List SearchResult :=
  match els with
  | [] => (sections, results)
  | e :: rest =>
    let pr := searchOdtElement search_term fp e sections results
    searchOdtList search_term fp rest pr.1 pr.2

end

/-- Embedding of `SearchWorker.search_odt`: the parsed `content.xml` root
is passed in place of the zip read; traversal starts with empty section
stack and empty result list. -/
def search_odt (search_term fp : Str) (content : Element) : Option SearchResults :=
  let results := (searchOdtElement search_term fp content [] []).2
  if results.isEmpty then none
  else some { results := results, search_term := search_term, rtype := "odt".data }

mutual

/-- Erase every `tail` field of a tree (used to state that the traversal
never looks at tail text). -/
def stripTails : Element → Element
  | .mk tag text _tail children => .mk tag text none (stripTailsList children)

/-- The map of `stripTails` over a list of children. -/
def stripTailsList : List Element → List Element
  | [] => []
  | e :: es => stripTails e :: stripTailsList es

end

mutual

/-- Number of traversal units that match the empty search term: every
heading (its text, defaulted to the empty string, always contains the
empty string) and every non-heading element with direct text. -/
def emptyTermCount : Element → Nat
  | .mk tag text _tail children =>
    (if tag = qn ("text:h".data) then 1 else if text.isSome then 1 else 0)
      + emptyTermCountList children

/-- The sum of `emptyTermCount` over a list of children. -/
def emptyTermCountList : List Element → Nat
  | [] => 0
  | e :: es => emptyTermCount e + emptyTermCountList es

end

/-- One job completion in the coordinator model: the worker that picked up
job `i` writes that path's outcome into pipe `i` (each pipe is written by
exactly one job, with a value that depends only on the path). -/
def applyJob (outcome : Nat → Option SearchResults)
    (pipes : List (Option (Option SearchResults))) (i : Nat) :
    List (Option (Option SearchResults)) :=
  pipes.set i (some (outcome i))

/-- Run a completion schedule: jobs finish in the order given by `order`,
each filling its own pipe; initially all `n` pipes are empty. -/
def runSchedule (outcome : Nat → Option SearchResults) (order : List Nat) (n : Nat) :
    List (Option (Option SearchResults)) :=
  order.foldl (applyJob outcome) (List.replicate n none)

/-- Embedding of the coordinator loop of `search`: one pipe per path in
submission order, jobs completed in an arbitrary schedule `order`, then
the pipes read in submission order (`for pipe in pipes: pipe.recv()`). -/
def coordinate (paths : List Str) (outcome : Str → Option SearchResults)
    (order : List Nat) : List (Option (Option SearchResults)) :=
  runSchedule (fun i => outcome (paths.getD i [])) order paths.length

/-- A paragraph `x` under the first heading of the two-sibling-headings
test document. -/
def paraX : Element := .mk (qn ("text:p".data)) (some ("x".data)) none []

/-- First heading `A` of the test document, containing `paraX`. -/
def headA : Element := .mk (qn ("text:h".data)) (some ("A".data)) none [paraX]

/-- A paragraph containing the search term, under the second heading. -/
def paraNeedle : Element := .mk (qn ("text:p".data)) (some ("needle".data)) none []

/-- Second (sibling) heading `B` of the test document, containing
`paraNeedle`. -/
def headB : Element := .mk (qn ("text:h".data)) (some ("B".data)) none [paraNeedle]

/-- Test document body: two sibling headings `A` and `B`, with the search
term occurring only in a paragraph under `B`. -/
def docBody : Element := .mk (qn ("office:body".data)) none none [headA, headB]

/-- A result carries only a section path (no line or page number). -/
def odtShaped (res : SearchResult) : Prop :=
  res.sections.isSome ∧ res.line_no = none ∧ res.page_no = none

/-- The result set produced for the one-line file `a` searched for `a`
(concrete witness input). -/
def demoTextSet : SearchResults :=
  { results := [{ filepath := "f".data, rtext := some ("a".data), line_no := some 0 }],
    search_term := "a".data, rtype := "text".data }

/-!  Theorems. -/

/-- Simultaneous induction over elements and lists of children, matching
the shape of the mutual traversal functions. -/
theorem element_mutual_induction (P : Element → Prop) (Q : List Element → Prop)
    (hmk : ∀ tag text tl children, Q children → P (.mk tag text tl children))
    (hnil : Q [])
    (hcons : ∀ e es, P e → Q es → Q (e :: es)) :
    (∀ e, P e) ∧ (∀ es, Q es) := by
  have key : ∀ n : Nat, (∀ e : Element, sizeOf e ≤ n → P e) ∧
      (∀ es : List Element, sizeOf es ≤ n → Q es) := by
    intro n
    induction n with
    | zero =>
      constructor
      · intro e he; cases e with
        | mk t x tl ch =>
          have hs := Element.mk.sizeOf_spec t x tl ch
          omega
      · intro es hes; cases es with
        | nil => exact hnil
        | cons e es2 =>
          have hs : sizeOf (e :: es2) = 1 + sizeOf e + sizeOf es2 := by simp
          omega
    | succ n ih =>
      constructor
      · intro e he
        cases e with
        | mk t x tl ch =>
          apply hmk
          apply ih.2
          have hs := Element.mk.sizeOf_spec t x tl ch
          omega
      · intro es hes
        cases es with
        | nil => exact hnil
        | cons e es2 =>
          have hs : sizeOf (e :: es2) = 1 + sizeOf e + sizeOf es2 := by simp
          apply hcons
          · exact ih.1 e (by omega)
          · exact ih.2 es2 (by omega)
  exact ⟨fun e => (key (sizeOf e)).1 e le_rfl, fun es => (key (sizeOf es)).2 es le_rfl⟩


theorem mem_searchTxtFrom (st fp : Str) (lines : List Str) :
    ∀ (n : Nat) (r : SearchResult),
    r ∈ searchTxtFrom st fp n lines ↔
      ∃ k line, lines[k]? = some line ∧ occursIn st line ∧
        r = { filepath := fp, rtext := some line, line_no := some (n + k) } := by
  induction lines with
  | nil => intro n r; simp [searchTxtFrom]
  | cons line rest ih =>
    intro n r
    simp only [searchTxtFrom, List.mem_append]
    constructor
    · rintro (hhead | htail)
      · by_cases hocc : occursIn st line
        · simp only [hocc, if_true, List.mem_singleton] at hhead
          exact ⟨0, line, by simp, hocc, by simpa using hhead⟩
        · simp [hocc] at hhead
      · obtain ⟨k, line2, hget, hocc2, hr⟩ := (ih (n + 1) r).1 htail
        refine ⟨k + 1, line2, by simpa using hget, hocc2, ?_⟩
        rw [hr]
        have : n + 1 + k = n + (k + 1) := by omega
        rw [this]
    · rintro ⟨k, line2, hget, hocc2, hr⟩
      cases k with
      | zero =>
        left
        simp only [List.getElem?_cons_zero, Option.some_inj] at hget
        subst hget
        simp [hocc2, hr]
      | succ k2 =>
        right
        apply (ih (n + 1) r).2
        refine ⟨k2, line2, by simpa using hget, hocc2, ?_⟩
        rw [hr]
        have : n + 1 + k2 = n + (k2 + 1) := by omega
        rw [this]

theorem countP_searchTxtFrom (st fp : Str) (lines : List Str) :
    ∀ (n j : Nat),
    (searchTxtFrom st fp n lines).countP (fun r => decide (r.line_no = some (n + j))) =
      match lines[j]? with
      | some line => if occursIn st line then 1 else 0
      | none => 0 := by
  induction lines with
  | nil => intro n j; simp [searchTxtFrom]
  | cons line rest ih =>
    intro n j
    simp only [searchTxtFrom, List.countP_append]
    cases j with
    | zero =>
      have htail : (searchTxtFrom st fp (n + 1) rest).countP
          (fun r => decide (r.line_no = some (n + 0))) = 0 := by
        rw [List.countP_eq_zero]
        intro r hr
        obtain ⟨k, line2, _, _, hr2⟩ := (mem_searchTxtFrom st fp rest (n + 1) r).1 hr
        simp [hr2]
        omega
      rw [htail]
      by_cases hocc : occursIn st line
      · simp [hocc, List.countP_cons]
      · simp [hocc]
    | succ j2 =>
      have hhead : (if occursIn st line then
          [({ filepath := fp, rtext := some line, line_no := some n } : SearchResult)]
          else []).countP (fun r => decide (r.line_no = some (n + (j2 + 1)))) = 0 := by
        by_cases hocc : occursIn st line
        · simp [hocc, List.countP_cons]
        · simp [hocc]
      rw [hhead]
      have := ih (n + 1) j2
      have harith : n + 1 + j2 = n + (j2 + 1) := by omega
      rw [harith] at this
      rw [this]
      simp

/-- Claim C2: for every plain-text file and pattern, the plain-text search
produces exactly one result for every line containing the pattern as a
literal substring, carrying that line's 0-indexed line number and text,
and no result for any non-matching line. -/
theorem search_txt_line_exactness (st fp : Str) (lines : List Str) (i : Nat)
    (h : i < lines.length) :
    (searchTxtResults st fp lines).countP (fun r => decide (r.line_no = some i)) =
      (if occursIn st (lines.get ⟨i, h⟩) then 1 else 0) ∧
    ∀ r ∈ searchTxtResults st fp lines, r.line_no = some i →
      r = { filepath := fp, rtext := some (lines.get ⟨i, h⟩), line_no := some i } := by
  constructor
  · have hc := countP_searchTxtFrom st fp lines 0 i
    simp only [Nat.zero_add] at hc
    rw [searchTxtResults, hc, List.getElem?_eq_getElem h]
    simp [List.get_eq_getElem]
  · intro r hr hline
    obtain ⟨k, line2, hget, hocc2, hr2⟩ :=
      (mem_searchTxtFrom st fp lines 0 r).1 hr
    rw [hr2] at hline ⊢
    simp only [SearchResult.mk.injEq] at hline ⊢
    have hk : k = i := by
      simp only [Nat.zero_add] at hline
      simpa using hline
    subst hk
    simp only [Nat.zero_add]
    have hline2 : line2 = lines[k] := by
      rw [List.getElem?_eq_getElem h] at hget
      exact (Option.some_inj.mp hget).symm
    simp [List.get_eq_getElem, hline2]

/-- Witness for claim C2 on the spec scenario file: pattern foo, lines
[foo, the foobar is here, nothing], line 1 matches exactly once. -/
theorem search_txt_line_exactness_witness :
    (searchTxtResults ("foo".data) ("f".data)
        ["foo".data, "the foobar is here".data, "nothing".data]).countP
      (fun r => decide (r.line_no = some 1)) = 1 := by
  have h := (search_txt_line_exactness ("foo".data) ("f".data)
    ["foo".data, "the foobar is here".data, "nothing".data] 1 (by decide)).1
  exact h.trans (by decide)

/-- Membership in one page's matches: a result for page `n` comes from a
line of that page containing the term, with the line stripped. -/
theorem mem_searchPageLines (st fp : Str) (n : Nat) (page : Str) (r : SearchResult) :
    r ∈ searchPageLines st fp n page ↔
      ∃ line, line ∈ splitOnChar '\n' page ∧ occursIn st line ∧
        r = { filepath := fp, rtext := some (stripStr line), page_no := some n } := by
  simp only [searchPageLines, List.mem_filterMap]
  constructor
  · rintro ⟨line, hmem, hif⟩
    by_cases hocc : occursIn st line
    · simp only [hocc, if_true, Option.some_inj] at hif
      exact ⟨line, hmem, hocc, hif.symm⟩
    · simp [hocc] at hif
  · rintro ⟨line, hmem, hocc, hr⟩
    exact ⟨line, hmem, by simp [hocc, hr]⟩

/-- Membership in the page loop starting at page number `n`: a result
comes from some page at offset `p`, numbered `n + p`. -/
theorem mem_searchPdfPages (st fp : Str) (pages : List Str) :
    ∀ (n : Nat) (r : SearchResult),
    r ∈ searchPdfPages st fp n pages ↔
      ∃ p line, pages[p]? = some line ∧ ∃ pline, pline ∈ splitOnChar '\n' line ∧
        occursIn st pline ∧
        r = { filepath := fp, rtext := some (stripStr pline), page_no := some (n + p) } := by
  induction pages with
  | nil => intro n r; simp [searchPdfPages]
  | cons page rest ih =>
    intro n r
    simp only [searchPdfPages, List.mem_append]
    constructor
    · rintro (hhead | htail)
      · obtain ⟨pline, hmem, hocc, hr⟩ := (mem_searchPageLines st fp n page r).1 hhead
        exact ⟨0, page, by simp, pline, hmem, hocc, by simpa using hr⟩
      · obtain ⟨p, line, hget, pline, hmem, hocc, hr⟩ := (ih (n + 1) r).1 htail
        refine ⟨p + 1, line, by simpa using hget, pline, hmem, hocc, ?_⟩
        rw [hr]
        have harith : n + 1 + p = n + (p + 1) := by omega
        rw [harith]
    · rintro ⟨p, line, hget, pline, hmem, hocc, hr⟩
      cases p with
      | zero =>
        left
        simp only [List.getElem?_cons_zero, Option.some_inj] at hget
        subst hget
        exact (mem_searchPageLines st fp n page r).2 ⟨pline, hmem, hocc, by simpa using hr⟩
      | succ p2 =>
        right
        apply (ih (n + 1) r).2
        refine ⟨p2, line, by simpa using hget, pline, hmem, hocc, ?_⟩
        rw [hr]
        have harith : n + 1 + p2 = n + (p2 + 1) := by omega
        rw [harith]

/-- Claim C3: the PDF search splits the converter output on the form-feed
character into pages numbered from 1 and searches each page's lines
independently; every result comes from a single line of a single page,
is attributed to that page's 1-indexed number and carries the stripped
line, so a pattern spanning a page boundary is never matched. -/
theorem search_pdf_page_attribution (st fp stdout : Str) (r : SearchResult) :
    r ∈ searchPdfResults st fp stdout ↔
      ∃ p, ∃ hp : p < (splitOnChar '\x0c' stdout).length,
        ∃ line, line ∈ splitOnChar '\n' ((splitOnChar '\x0c' stdout).get ⟨p, hp⟩) ∧
          occursIn st line ∧
          r = { filepath := fp, rtext := some (stripStr line), page_no := some (p + 1) } := by
  rw [searchPdfResults, mem_searchPdfPages]
  constructor
  · rintro ⟨p, page, hget, pline, hmem, hocc, hr⟩
    have hp : p < (splitOnChar '\x0c' stdout).length := by
      exact (List.getElem?_eq_some.mp hget).1
    refine ⟨p, hp, pline, ?_, hocc, by rw [hr]; rw [Nat.add_comm]⟩
    have hpage : (splitOnChar '\x0c' stdout)[p] = page := by
      rw [List.getElem?_eq_getElem hp] at hget
      exact Option.some_inj.mp hget
    rw [List.get_eq_getElem, hpage]
    exact hmem
  · rintro ⟨p, hp, line, hmem, hocc, hr⟩
    refine ⟨p, (splitOnChar '\x0c' stdout).get ⟨p, hp⟩, ?_, line,
      by simpa [List.get_eq_getElem] using hmem, hocc, by rw [hr]; rw [Nat.add_comm]⟩
    rw [List.getElem?_eq_getElem hp, List.get_eq_getElem]

/-- An element retrieved by index is a member of the list. -/
theorem memOfGetElem {l : List Str} {k : Nat} {a : Str} (h : l[k]? = some a) : a ∈ l := by
  obtain ⟨hlt, heq⟩ := List.getElem?_eq_some.mp h
  rw [← heq]
  exact List.getElem_mem hlt

/-- The text search yields no result record exactly when no line contains
the term. -/
theorem searchTxtResults_eq_nil_iff (st fp : Str) (lines : List Str) :
    searchTxtResults st fp lines = [] ↔ ∀ line ∈ lines, occursIn st line = false := by
  rw [List.eq_nil_iff_forall_not_mem]
  constructor
  · intro hnone line hline
    by_contra hocc
    rw [Bool.not_eq_false] at hocc
    obtain ⟨k, hk⟩ := List.mem_iff_getElem?.mp hline
    exact hnone _ ((mem_searchTxtFrom st fp lines 0 _).2 ⟨k, line, hk, hocc, rfl⟩)
  · intro hall r hr
    obtain ⟨k, line2, hget, hocc, _⟩ := (mem_searchTxtFrom st fp lines 0 r).1 hr
    have hfalse := hall line2 (memOfGetElem hget)
    rw [hfalse] at hocc
    exact absurd hocc (by simp)

/-- The PDF search yields no result record exactly when no line of any
page contains the term. -/
theorem searchPdfResults_eq_nil_iff (st fp stdout : Str) :
    searchPdfResults st fp stdout = [] ↔
      ∀ page ∈ splitOnChar '\x0c' stdout, ∀ line ∈ splitOnChar '\n' page,
        occursIn st line = false := by
  rw [List.eq_nil_iff_forall_not_mem]
  constructor
  · intro hnone page hpage line hline
    by_contra hocc
    rw [Bool.not_eq_false] at hocc
    obtain ⟨k, hk⟩ := List.mem_iff_getElem?.mp hpage
    exact hnone _ ((mem_searchPdfPages st fp _ 1 _).2 ⟨k, page, hk, line, hline, hocc, rfl⟩)
  · intro hall r hr
    obtain ⟨p, page, hget, pline, hmem, hocc, _⟩ :=
      (mem_searchPdfPages st fp _ 1 r).1 hr
    have hfalse := hall page (memOfGetElem hget) pline hmem
    rw [hfalse] at hocc
    exact absurd hocc (by simp)

/-- Claim C5: each extractor returns `None` exactly when the file yielded
zero matches, and whenever a result set is returned its `results` sequence
is non-empty — an empty result set is never constructed. -/
theorem extractor_none_iff_no_match (st fp : Str) (lines : List Str)
    (stdout : Str) (content : Element) :
    (search_txt st fp lines = none ↔ ∀ line ∈ lines, occursIn st line = false) ∧
    (∀ rs, search_txt st fp lines = some rs → rs.results ≠ []) ∧
    (search_pdf st fp 0 stdout = Except.ok none ↔
      ∀ page ∈ splitOnChar '\x0c' stdout, ∀ line ∈ splitOnChar '\n' page,
        occursIn st line = false) ∧
    (∀ rs, search_pdf st fp 0 stdout = Except.ok (some rs) → rs.results ≠ []) ∧
    (search_odt st fp content = none ↔ (searchOdtElement st fp content [] []).2 = []) ∧
    (∀ rs, search_odt st fp content = some rs → rs.results ≠ []) := by
  refine ⟨?_, ?_, ?_, ?_, ?_, ?_⟩
  · rw [← searchTxtResults_eq_nil_iff st fp lines, ← List.isEmpty_iff]
    unfold search_txt
    by_cases h : (searchTxtResults st fp lines).isEmpty <;> simp [h]
  · intro rs hrs
    unfold search_txt at hrs
    by_cases h : (searchTxtResults st fp lines).isEmpty
    · rw [if_pos h] at hrs; cases hrs
    · rw [if_neg h, Option.some_inj] at hrs
      rw [← hrs]
      intro hc
      exact h (List.isEmpty_iff.mpr hc)
  · rw [← searchPdfResults_eq_nil_iff st fp stdout, ← List.isEmpty_iff]
    unfold search_pdf
    by_cases h : (searchPdfResults st fp stdout).isEmpty <;> simp [h]
  · intro rs hrs
    unfold search_pdf at hrs
    rw [if_neg (show ¬((0 : Int) ≠ 0) by omega)] at hrs
    by_cases h : (searchPdfResults st fp stdout).isEmpty
    · rw [if_pos h] at hrs; cases hrs
    · rw [if_neg h, Except.ok.injEq, Option.some_inj] at hrs
      rw [← hrs]
      intro hc
      exact h (List.isEmpty_iff.mpr hc)
  · rw [← List.isEmpty_iff]
    unfold search_odt
    by_cases h : ((searchOdtElement st fp content [] []).2).isEmpty <;> simp [h]
  · intro rs hrs
    unfold search_odt at hrs
    by_cases h : ((searchOdtElement st fp content [] []).2).isEmpty
    · rw [if_pos h] at hrs; cases hrs
    · rw [if_neg h, Option.some_inj] at hrs
      rw [← hrs]
      intro hc
      exact h (List.isEmpty_iff.mpr hc)

/-- Witness for claim C5: a one-line file not containing the pattern
yields no result set. -/
theorem extractor_none_iff_no_match_witness :
    search_txt ("q".data) ("f".data) ["x".data] = none := by
  have h := (extractor_none_iff_no_match ("q".data) ("f".data) ["x".data] "".data
    (Element.mk [] none none [])).1
  exact h.mpr (by decide)

/-- Frame property of the traversal: the result list is append-only (the
output extends the input list) and neither the new results nor the final
section stack depend on the results passed in. -/
theorem searchOdt_frame (st fp : Str) :
    (∀ e : Element, ∀ s r, searchOdtElement st fp e s r =
       ((searchOdtElement st fp e s []).1, r ++ (searchOdtElement st fp e s []).2)) ∧
    (∀ es : List Element, ∀ s r, searchOdtList st fp es s r =
       ((searchOdtList st fp es s []).1, r ++ (searchOdtList st fp es s []).2)) := by
  apply element_mutual_induction
    (P := fun e => ∀ s r, searchOdtElement st fp e s r =
       ((searchOdtElement st fp e s []).1, r ++ (searchOdtElement st fp e s []).2))
    (Q := fun es => ∀ s r, searchOdtList st fp es s r =
       ((searchOdtList st fp es s []).1, r ++ (searchOdtList st fp es s []).2))
  · intro tag text tl children hQ s r
    have key : ∀ (s2 : List Str) (δ : List SearchResult),
        searchOdtList st fp children s2 (r ++ δ) =
          ((searchOdtList st fp children s2 ([] ++ δ)).1,
            r ++ (searchOdtList st fp children s2 ([] ++ δ)).2) := by
      intro s2 δ
      rw [hQ s2 (r ++ δ), hQ s2 ([] ++ δ)]
      simp [List.append_assoc]
    by_cases htag : tag = qn ("text:h".data)
    · simp only [searchOdtElement, htag, if_true]
      by_cases hocc : occursIn st (text.getD [])
      · simp only [hocc, if_true]
        exact key (s ++ [text.getD []]) _
      · rw [Bool.not_eq_true] at hocc
        simp only [hocc, Bool.false_eq_true, if_false]
        exact hQ (s ++ [text.getD []]) r
    · simp only [searchOdtElement, htag, if_false]
      cases text with
      | none =>
        simp only
        exact hQ s r
      | some etext =>
        by_cases hocc : occursIn st etext
        · simp only [hocc, if_true]
          exact key s _
        · rw [Bool.not_eq_true] at hocc
          simp only [hocc, Bool.false_eq_true, if_false]
          exact hQ s r
  · intro s r
    simp [searchOdtList]
  · intro e es hP hQ s r
    simp only [searchOdtList]
    rw [hP s r]
    rw [hQ (searchOdtElement st fp e s []).1 (r ++ (searchOdtElement st fp e s []).2)]
    rw [hP s ([] : List SearchResult)]
    simp only [List.nil_append]
    rw [hQ (searchOdtElement st fp e s []).1 (searchOdtElement st fp e s []).2]
    simp [List.append_assoc]

/-- Claim C7: on a heading element the traversal appends the heading's
direct text (the empty string when absent) to the section path before
testing for a match, so a heading match yields a heading-only result with
no text, whose captured section path ends in that heading and survives
unchanged in the final output (a snapshot, not a live reference). -/
theorem odt_heading_result (st fp tag : Str) (txt tl : Option Str)
    (children : List Element) (s : List Str) (r : List SearchResult)
    (htag : tag = qn ("text:h".data))
    (hocc : occursIn st (txt.getD []) = true) :
    ∃ res ∈ (searchOdtElement st fp (.mk tag txt tl children) s r).2,
      res.rtext = none ∧ res.line_no = none ∧ res.page_no = none ∧
      res.sections = some (s ++ [txt.getD []]) ∧
      (s ++ [txt.getD []]).getLast? = some (txt.getD []) := by
  refine ⟨{ filepath := fp, sections := some (s ++ [txt.getD []]) }, ?_,
    rfl, rfl, rfl, rfl, List.getLast?_concat s⟩
  simp only [searchOdtElement, htag, if_true, hocc]
  rw [(searchOdt_frame st fp).2 children (s ++ [txt.getD []])
    (r ++ [({ filepath := fp, rtext := none, line_no := none, page_no := none,
              sections := some (s ++ [txt.getD []]) } : SearchResult)])]
  simp

/-- Witness for claim C7: a heading with text `abc` and pattern `b`
yields a heading-only result ending in `abc`. -/
theorem odt_heading_result_witness :
    ∃ res ∈ (searchOdtElement ("b".data) ("f".data)
        (Element.mk (qn ("text:h".data)) (some ("abc".data)) none []) [] []).2,
      res.rtext = none ∧ res.line_no = none ∧ res.page_no = none ∧
      res.sections = some ([] ++ ["abc".data]) ∧
      (([] : List Str) ++ ["abc".data]).getLast? = some ("abc".data) := by
  exact odt_heading_result ("b".data) ("f".data) (qn ("text:h".data)) (some ("abc".data))
    none [] [] [] rfl (by decide)

/-- Claim C1, evaluated at the failing input: for the document
`body[ h(A)[ p(x) ], h(B)[ p(needle) ] ]` and pattern `needle`, the single
result's section path is `[A, B]`, leaking the sibling heading `A` that is
not an ancestor of the matched paragraph — the traversal never pops the
section stack on return from a heading's subtree. -/
theorem odt_sections_leak_across_sibling_headings :
    (searchOdtElement ("needle".data) ("f".data) docBody [] []).2 =
      [{ filepath := "f".data, rtext := some ("needle".data),
         sections := some ["A".data, "B".data] }] := by
  decide


/-- The traversal only ever appends section-path-located results. -/
theorem searchOdt_results_shaped (st fp : Str) :
    (∀ e : Element, ∀ s r, (∀ x ∈ r, odtShaped x) →
       ∀ x ∈ (searchOdtElement st fp e s r).2, odtShaped x) ∧
    (∀ es : List Element, ∀ s r, (∀ x ∈ r, odtShaped x) →
       ∀ x ∈ (searchOdtList st fp es s r).2, odtShaped x) := by
  apply element_mutual_induction
    (P := fun e => ∀ s r, (∀ x ∈ r, odtShaped x) →
       ∀ x ∈ (searchOdtElement st fp e s r).2, odtShaped x)
    (Q := fun es => ∀ s r, (∀ x ∈ r, odtShaped x) →
       ∀ x ∈ (searchOdtList st fp es s r).2, odtShaped x)
  · intro tag text tl children hQ s r hr
    by_cases htag : tag = qn ("text:h".data)
    · simp only [searchOdtElement, htag, if_true]
      by_cases hocc : occursIn st (text.getD [])
      · simp only [hocc, if_true]
        apply hQ
        intro x hx
        rcases List.mem_append.mp hx with hx1 | hx2
        · exact hr x hx1
        · rw [List.mem_singleton] at hx2
          rw [hx2]
          exact ⟨rfl, rfl, rfl⟩
      · rw [Bool.not_eq_true] at hocc
        simp only [hocc, Bool.false_eq_true, if_false]
        exact hQ _ _ hr
    · simp only [searchOdtElement, htag, if_false]
      cases text with
      | none => exact hQ _ _ hr
      | some etext =>
        by_cases hocc : occursIn st etext
        · simp only [hocc, if_true]
          apply hQ
          intro x hx
          rcases List.mem_append.mp hx with hx1 | hx2
          · exact hr x hx1
          · rw [List.mem_singleton] at hx2
            rw [hx2]
            exact ⟨rfl, rfl, rfl⟩
        · rw [Bool.not_eq_true] at hocc
          simp only [hocc, Bool.false_eq_true, if_false]
          exact hQ _ _ hr
  · intro s r hr
    simpa [searchOdtList] using hr
  · intro e es hP hQ s r hr
    simp only [searchOdtList]
    exact hQ _ _ (hP _ _ hr)

/-- Claim C6: every result produced by an extractor has exactly one
location kind populated, and that kind matches the owning result set's
format kind: text results carry only a line number, pdf results only a
page number, odt results only a section path. -/
theorem result_location_discriminated (st fp : Str) (lines : List Str)
    (stdout : Str) (content : Element) :
    (∀ rs, search_txt st fp lines = some rs → rs.rtype = "text".data ∧
      ∀ res ∈ rs.results, res.line_no.isSome ∧ res.page_no = none ∧ res.sections = none) ∧
    (∀ rs, search_pdf st fp 0 stdout = Except.ok (some rs) → rs.rtype = "pdf".data ∧
      ∀ res ∈ rs.results, res.page_no.isSome ∧ res.line_no = none ∧ res.sections = none) ∧
    (∀ rs, search_odt st fp content = some rs → rs.rtype = "odt".data ∧
      ∀ res ∈ rs.results, res.sections.isSome ∧ res.line_no = none ∧ res.page_no = none) := by
  refine ⟨?_, ?_, ?_⟩
  · intro rs hrs
    unfold search_txt at hrs
    by_cases h : (searchTxtResults st fp lines).isEmpty
    · rw [if_pos h] at hrs; cases hrs
    · rw [if_neg h, Option.some_inj] at hrs
      rw [← hrs]
      refine ⟨rfl, ?_⟩
      intro res hres
      obtain ⟨k, line2, _, _, hr2⟩ := (mem_searchTxtFrom st fp lines 0 res).1 hres
      rw [hr2]
      exact ⟨rfl, rfl, rfl⟩
  · intro rs hrs
    unfold search_pdf at hrs
    rw [if_neg (show ¬((0 : Int) ≠ 0) by omega)] at hrs
    by_cases h : (searchPdfResults st fp stdout).isEmpty
    · rw [if_pos h] at hrs; cases hrs
    · rw [if_neg h, Except.ok.injEq, Option.some_inj] at hrs
      rw [← hrs]
      refine ⟨rfl, ?_⟩
      intro res hres
      obtain ⟨p, page, _, pline, _, _, hr2⟩ :=
        (mem_searchPdfPages st fp _ 1 res).1 hres
      rw [hr2]
      exact ⟨rfl, rfl, rfl⟩
  · intro rs hrs
    unfold search_odt at hrs
    by_cases h : ((searchOdtElement st fp content [] []).2).isEmpty
    · rw [if_pos h] at hrs; cases hrs
    · rw [if_neg h, Option.some_inj] at hrs
      rw [← hrs]
      refine ⟨rfl, ?_⟩
      intro res hres
      exact (searchOdt_results_shaped st fp).1 content [] [] (by intro x hx; cases hx) res hres

/-- Witness for claim C6: the one-line file `a` searched for `a` returns a
text-kind result set whose single result carries only a line number. -/
theorem result_location_discriminated_witness :
    demoTextSet.rtype = "text".data ∧
    ∀ res ∈ demoTextSet.results,
      res.line_no.isSome ∧ res.page_no = none ∧ res.sections = none := by
  exact (result_location_discriminated ("a".data) ("f".data) ["a".data] "".data
    (Element.mk [] none none [])).1 demoTextSet (by decide)

/-- Claim C8: the PDF search raises exactly when the converter's exit code
is non-zero (with the fatal `RuntimeError` message), a zero exit code
never raises, and a non-zero exit code is never converted into a
no-match result. -/
theorem pdf_error_iff_nonzero_exit (st fp : Str) (rc : Int) (stdout : Str) :
    ((∃ msg, search_pdf st fp rc stdout = Except.error msg) ↔ rc ≠ 0) ∧
    (rc ≠ 0 → search_pdf st fp rc stdout =
       Except.error ("Something went wrong with pdf parsing".data)) ∧
    (rc = 0 → ∃ o, search_pdf st fp rc stdout = Except.ok o) := by
  unfold search_pdf
  by_cases h : rc ≠ 0
  · rw [if_pos h]
    exact ⟨⟨fun _ => h, fun _ => ⟨_, rfl⟩⟩, fun _ => rfl, fun h0 => absurd h0 h⟩
  · rw [if_neg h]
    push_neg at h
    refine ⟨⟨?_, fun hne => absurd h hne⟩, fun hne => absurd h hne, fun _ => ?_⟩
    · rintro ⟨msg, hmsg⟩
      by_cases hemp : (searchPdfResults st fp stdout).isEmpty
      · rw [if_pos hemp] at hmsg; cases hmsg
      · rw [if_neg hemp] at hmsg; cases hmsg
    · by_cases hemp : (searchPdfResults st fp stdout).isEmpty
      · exact ⟨none, if_pos hemp⟩
      · exact ⟨_, if_neg hemp⟩

/-- Witness for claim C8: exit code 1 yields the fatal error. -/
theorem pdf_error_iff_nonzero_exit_witness :
    search_pdf ("a".data) ("f".data) 1 ("".data) =
      Except.error ("Something went wrong with pdf parsing".data) := by
  exact (pdf_error_iff_nonzero_exit ("a".data) ("f".data) 1 ("".data)).2.1 (by decide)

/-- Erasing tail text everywhere leaves the traversal unchanged, on single
elements and on child lists alike. -/
theorem searchOdt_stripTails (st fp : Str) :
    (∀ e : Element, ∀ s r, searchOdtElement st fp (stripTails e) s r =
       searchOdtElement st fp e s r) ∧
    (∀ es : List Element, ∀ s r, searchOdtList st fp (stripTailsList es) s r =
       searchOdtList st fp es s r) := by
  apply element_mutual_induction
    (P := fun e => ∀ s r, searchOdtElement st fp (stripTails e) s r =
       searchOdtElement st fp e s r)
    (Q := fun es => ∀ s r, searchOdtList st fp (stripTailsList es) s r =
       searchOdtList st fp es s r)
  · intro tag text tl children hQ s r
    simp only [stripTails, searchOdtElement]
    by_cases htag : tag = qn ("text:h".data)
    · simp only [htag, if_true]
      exact hQ _ _
    · simp only [htag, if_false]
      exact hQ _ _
  · intro s r
    simp [stripTailsList]
  · intro e es hP hQ s r
    simp only [stripTailsList, searchOdtList]
    rw [hP s r]
    exact hQ _ _

/-- Claim C10: the ODT traversal never examines tail text — its output is
invariant under erasing every element's tail, so a pattern occurring only
in tail text can never produce a result. -/
theorem odt_ignores_tail_text (st fp : Str) (e : Element) (s : List Str)
    (r : List SearchResult) :
    searchOdtElement st fp (stripTails e) s r = searchOdtElement st fp e s r :=
  (searchOdt_stripTails st fp).1 e s r

/-- The empty pattern occurs in every string (`"" in s` is always true). -/
theorem occursIn_nil (s : Str) : occursIn [] s = true := by
  induction s with
  | nil => rfl
  | cons c rest ih => simp [occursIn, startsWith, ih]

/-- With the empty pattern, every line of a text file matches. -/
theorem searchTxtFrom_nil_length (fp : Str) :
    ∀ (lines : List Str) (n : Nat),
    (searchTxtFrom [] fp n lines).length = lines.length := by
  intro lines
  induction lines with
  | nil => intro n; simp [searchTxtFrom]
  | cons line rest ih =>
    intro n
    simp [searchTxtFrom, occursIn_nil, ih]

/-- With the empty pattern, every line of every page matches. -/
theorem searchPdfPages_nil_length (fp : Str) :
    ∀ (pages : List Str) (n : Nat),
    (searchPdfPages [] fp n pages).length =
      (pages.map (fun page => (splitOnChar '\n' page).length)).sum := by
  intro pages
  induction pages with
  | nil => intro n; simp [searchPdfPages]
  | cons page rest ih =>
    intro n
    simp only [searchPdfPages, List.length_append, List.map_cons, List.sum_cons, ih]
    have hpage : (searchPageLines [] fp n page).length =
        (splitOnChar '\n' page).length := by
      unfold searchPageLines
      induction splitOnChar '\n' page with
      | nil => simp
      | cons l ls ihl => simp [occursIn_nil, ihl]
    omega

/-- With the empty pattern, the traversal emits one result per heading and
per element with direct text. -/
theorem searchOdt_nil_count (fp : Str) :
    (∀ e : Element, ∀ s r, ((searchOdtElement [] fp e s r).2).length =
       r.length + emptyTermCount e) ∧
    (∀ es : List Element, ∀ s r, ((searchOdtList [] fp es s r).2).length =
       r.length + emptyTermCountList es) := by
  apply element_mutual_induction
    (P := fun e => ∀ s r, ((searchOdtElement [] fp e s r).2).length =
       r.length + emptyTermCount e)
    (Q := fun es => ∀ s r, ((searchOdtList [] fp es s r).2).length =
       r.length + emptyTermCountList es)
  · intro tag text tl children hQ s r
    by_cases htag : tag = qn ("text:h".data)
    · simp only [searchOdtElement, emptyTermCount, htag, if_true, occursIn_nil]
      rw [hQ]
      simp
      omega
    · simp only [searchOdtElement, emptyTermCount, htag, if_false]
      cases text with
      | none =>
        simp only [Option.isSome_none, Bool.false_eq_true, if_false]
        rw [hQ]
        omega
      | some etext =>
        simp only [occursIn_nil, if_true, Option.isSome_some]
        rw [hQ]
        simp
        omega
  · intro s r
    simp [searchOdtList, emptyTermCountList]
  · intro e es hP hQ s r
    simp only [searchOdtList, emptyTermCountList]
    rw [hQ, hP]
    omega

/-- Claim C9: the empty pattern is accepted and matches everywhere — every
line of a plain-text file, every line of every PDF page, every heading and
every ODT element with direct text yields a result, and a non-empty file
always yields a result set. -/
theorem empty_pattern_matches_everywhere (fp : Str) (lines : List Str)
    (stdout : Str) (e : Element) (s : List Str) (r : List SearchResult) :
    ((searchTxtResults [] fp lines).length = lines.length) ∧
    (lines ≠ [] → ∃ rs, search_txt [] fp lines = some rs ∧
      rs.results.length = lines.length) ∧
    ((searchPdfResults [] fp stdout).length =
      ((splitOnChar '\x0c' stdout).map (fun page => (splitOnChar '\n' page).length)).sum) ∧
    (((searchOdtElement [] fp e s r).2).length = r.length + emptyTermCount e) := by
  refine ⟨searchTxtFrom_nil_length fp lines 0, ?_, searchPdfPages_nil_length fp _ 1, (searchOdt_nil_count fp).1 e s r⟩
  intro hne
  have hlen : (searchTxtResults [] fp lines).length = lines.length :=
    searchTxtFrom_nil_length fp lines 0
  have hemp : ¬(searchTxtResults [] fp lines).isEmpty := by
    intro hc
    rw [List.isEmpty_iff] at hc
    rw [hc] at hlen
    exact hne (List.eq_nil_of_length_eq_zero hlen.symm)
  refine ⟨{ results := searchTxtResults [] fp lines, search_term := [],
            rtype := "text".data }, ?_, hlen⟩
  unfold search_txt
  rw [if_neg hemp]

/-- Witness for claim C9: the empty pattern on a one-line file yields a
result set with one result. -/
theorem empty_pattern_matches_everywhere_witness :
    ∃ rs, search_txt [] "f".data ["hello".data] = some rs ∧
      rs.results.length = 1 := by
  have h := (empty_pattern_matches_everywhere ("f".data) ["hello".data] "".data
    (Element.mk [] none none []) [] []).2.1 (by decide)
  simpa using h

/-- After running any completion schedule from any pipe state, pipe `j`
holds job `j`'s outcome exactly when job `j` appeared in the schedule;
otherwise it is untouched. -/
theorem runSchedule_getElem (outcome : Nat → Option SearchResults) :
    ∀ (order : List Nat) (pipes : List (Option (Option SearchResults))) (j : Nat),
    (order.foldl (applyJob outcome) pipes)[j]? =
      if j ∈ order ∧ j < pipes.length then some (some (outcome j)) else pipes[j]? := by
  intro order
  induction order with
  | nil => intro pipes j; simp
  | cons i rest ih =>
    intro pipes j
    simp only [List.foldl_cons]
    rw [ih (applyJob outcome pipes i) j]
    have hlen : (applyJob outcome pipes i).length = pipes.length := by
      simp [applyJob]
    by_cases hjrest : j ∈ rest
    · have hmem : j ∈ i :: rest := List.mem_cons_of_mem i hjrest
      by_cases hjlt : j < pipes.length
      · simp [hjrest, hjlt, hlen, hmem]
      · have houtl : pipes[j]? = none := List.getElem?_eq_none (by omega)
        have houtl2 : (applyJob outcome pipes i)[j]? = none :=
          List.getElem?_eq_none (by omega)
        simp [hjrest, hjlt, hlen, houtl, houtl2]
    · by_cases hij : i = j
      · subst hij
        by_cases hjlt : i < pipes.length
        · have hset : (applyJob outcome pipes i)[i]? = some (some (outcome i)) := by
            unfold applyJob
            exact List.getElem?_set_self hjlt
          simp [hjrest, hjlt, hlen, hset, List.mem_cons]
        · have houtl : pipes[i]? = none := List.getElem?_eq_none (by omega)
          have houtl2 : (applyJob outcome pipes i)[i]? = none :=
            List.getElem?_eq_none (by omega)
          simp [hjrest, hjlt, hlen, houtl, houtl2]
      · have hset : (applyJob outcome pipes i)[j]? = pipes[j]? := by
          unfold applyJob
          exact List.getElem?_set_ne hij
        have hmem : ¬ j ∈ i :: rest := by
          intro hc
          rcases List.mem_cons.mp hc with hc1 | hc2
          · exact hij hc1.symm
          · exact hjrest hc2
        simp [hjrest, hlen, hset, hmem]

/-- Claim C4: for any list of input paths and any completion schedule that
finishes every job (in any order, by any workers), the coordinator's
delivered stream — read pipe by pipe in path-submission order — equals the
per-path outcomes in submission order, not completion order. -/
theorem coordinate_delivers_in_submission_order (paths : List Str)
    (outcome : Str → Option SearchResults) (order : List Nat)
    (hperm : order.Perm (List.range paths.length)) :
    coordinate paths outcome order = paths.map (fun p => some (outcome p)) := by
  apply List.ext_getElem?
  intro j
  rw [coordinate, runSchedule, runSchedule_getElem]
  have hmem : j ∈ order ↔ j < paths.length := by
    rw [hperm.mem_iff, List.mem_range]
  rw [List.length_replicate]
  by_cases hj : j < paths.length
  · rw [if_pos ⟨hmem.mpr hj, hj⟩]
    rw [List.getElem?_map, List.getElem?_eq_getElem hj,
      List.getD_eq_getElem paths [] hj]
    rfl
  · rw [if_neg (by intro hc; exact hj hc.2)]
    rw [List.getElem?_eq_none (by simp; omega), List.getElem?_eq_none (by simp; omega)]

/-- Witness for claim C4: three paths completed in the order 2, 0, 1 are
still delivered in submission order. -/
theorem coordinate_delivers_in_submission_order_witness :
    coordinate ["a".data, "b".data, "c".data] (fun _ => none) [2, 0, 1] =
      [some none, some none, some none] := by
  have h := coordinate_delivers_in_submission_order ["a".data, "b".data, "c".data]
    (fun _ => none) [2, 0, 1] (by decide)
  simpa using h

end Supergrep
